import Mathlib

/-!
Shallow embedding of the receipt-line extraction engine of
supreetog/receipt-parser (src/app.py, class ReceiptParser: parse_receipt,
extract_store_name, extract_date, extract_total, extract_items together with
its nested helper is_likely_item_line).

Modelling conventions:
* Python strings are modelled as Lean List Char (wrapped into String at the
  record boundary).  All character predicates (isdigit, whitespace, upper,
  word chars) use the ASCII semantics, sufficient for the receipt texts the
  engine is specified on.
* Python float arithmetic on prices is modelled exactly: a decimal literal
  string parses to a pair (num, scale) with value num / 10 ^ scale, compared
  by exact cross multiplication, and the percent-style formatting f-string
  with two decimals rounds half-to-even on the exact value.  This coincides
  with the double-precision behaviour on all prices with at most a few
  digits; the divergence on adversarial 17-digit decimal ties is noted where
  relevant.
* The regular expressions of the source are embedded as data (type RE) and
  executed by a backtracking matcher with Python re semantics: ordered
  alternation, greedy and lazy quantifiers over character classes, capture
  groups, word boundaries, and the dollar anchor matching at the end of the
  haystack or just before a final newline.
-/

namespace Receipt

/-! ### Python character classes (ASCII semantics) -/

def pySpace (c : Char) : Bool :=
  c = ' ' || c = '\t' || c = '\n' || c = '\r' || c = '\x0b' || c = '\x0c'

def pyDigit (c : Char) : Bool := '0' ≤ c && c ≤ '9'

def upperAZ (c : Char) : Bool := 'A' ≤ c && c ≤ 'Z'

def lowerAZ (c : Char) : Bool := 'a' ≤ c && c ≤ 'z'

def alphaAZ (c : Char) : Bool := upperAZ c || lowerAZ c

/-- Regex \w : [A-Za-z0-9_] . -/
def wordC (c : Char) : Bool := alphaAZ c || pyDigit c || c = '_'

/-- Regex . (no DOTALL): any character but a newline. -/
def dotC (c : Char) : Bool := c ≠ '\n'

def toLowerC (c : Char) : Char := if upperAZ c then Char.ofNat (c.toNat + 32) else c

def toUpperC (c : Char) : Char := if lowerAZ c then Char.ofNat (c.toNat - 32) else c

/-! ### Python string helpers (on List Char) -/

def pyStripL (l : List Char) : List Char :=
  ((l.dropWhile pySpace).reverse.dropWhile pySpace).reverse

def pyLowerL (l : List Char) : List Char := l.map toLowerC

/-- Python str.isupper: at least one cased character and no lowercase one. -/
def pyIsUpper (l : List Char) : Bool :=
  (l.any alphaAZ) && !(l.any lowerAZ)

/-- Python str.isdigit on ASCII text: nonempty and all digits. -/
def pyIsDigitStr (l : List Char) : Bool := !l.isEmpty && l.all pyDigit

/-- Number of words of str.split() with no argument: maximal nonspace runs.
The flag records whether the previous character was a nonspace. -/
def pyWordCountGo : Bool → List Char → Nat
  | _, [] => 0
  | inWord, c :: t =>
    if pySpace c then pyWordCountGo false t
    else (if inWord then 0 else 1) + pyWordCountGo true t

def pyWordCount (l : List Char) : Nat := pyWordCountGo false l

/-- Python str.title on ASCII text: a letter is uppercased when the previous
character is not a letter, lowercased otherwise. -/
def pyTitleGo : Bool → List Char → List Char
  | _, [] => []
  | prevAlpha, c :: t =>
    if alphaAZ c then
      (if prevAlpha then toLowerC c else toUpperC c) :: pyTitleGo true t
    else c :: pyTitleGo false t

def pyTitleL (l : List Char) : List Char := pyTitleGo false l

/-- Substring containment, the Python `in` operator on strings. -/
def isPrefixL : List Char → List Char → Bool
  | [], _ => true
  | _ :: _, [] => false
  | a :: as, b :: bs => a = b && isPrefixL as bs

def containsSub (needle : List Char) : List Char → Bool
  | [] => isPrefixL needle []
  | c :: t => isPrefixL needle (c :: t) || containsSub needle t

/-- text.split on a newline: always at least one piece. -/
def splitNL : List Char → List (List Char)
  | [] => [[]]
  | c :: t =>
    if c = '\n' then [] :: splitNL t
    else
      match splitNL t with
      | [] => [[c]]
      | p :: ps => (c :: p) :: ps

/-! ### Exact decimal numbers (model of Python float on decimal literals) -/

/-- A nonnegative decimal value num / 10 ^ scale, as parsed from a decimal
literal.  Kept unnormalised so that all comparisons are executable Nat
arithmetic. -/
structure Dec where
  num : Nat
  scale : Nat
deriving DecidableEq, Repr

def Dec.toQ (v : Dec) : ℚ := (v.num : ℚ) / 10 ^ v.scale

/-- Exact order on decimal values by cross multiplication. -/
def decLe (a b : Dec) : Bool := a.num * 10 ^ b.scale ≤ b.num * 10 ^ a.scale

def parseNat (l : List Char) : Nat :=
  l.foldl (fun a c => 10 * a + (c.toNat - 48)) 0

/-- float() on a string whose prefix is \d+(\.\d*)? : integer digits, an
optional dot, fraction digits.  Only ever applied to regex captures of that
shape. -/
def parseDec (l : List Char) : Dec :=
  let ip := l.takeWhile pyDigit
  let rest := l.drop ip.length
  if rest.head? = some '.' then
    let fp := rest.tail.takeWhile pyDigit
    ⟨parseNat ip * 10 ^ fp.length + parseNat fp, fp.length⟩
  else ⟨parseNat ip, 0⟩

/-- Round num/10^scale to integer cents, half to even — the value produced by
formatting with an f-string of two decimals. -/
def roundCents (v : Dec) : Nat :=
  let q := v.num * 100
  let d := 10 ^ v.scale
  let c := q / d
  let r := q % d
  if 2 * r < d then c else if d < 2 * r then c + 1 else if c % 2 = 0 then c else c + 1

def digitChar (d : Nat) : Char := Char.ofNat (48 + d)

def natCharsGo : Nat → Nat → List Char
  | 0, _ => []
  | fuel + 1, n =>
    if n < 10 then [digitChar n]
    else natCharsGo fuel (n / 10) ++ [digitChar (n % 10)]

/-- Decimal digits of n, as str(n) produces them. -/
def natChars (n : Nat) : List Char := natCharsGo (n + 1) n

def pad2 (n : Nat) : List Char := [digitChar (n / 10), digitChar (n % 10)]

/-- f-string price formatting with a dollar sign and two decimals, given the
rounded cents. -/
def formatCents (c : Nat) : List Char :=
  '$' :: natChars (c / 100) ++ '.' :: pad2 (c % 100)

/-! ### A small backtracking regex engine with Python re semantics

Quantifiers in the embedded patterns only ever apply to single-character
classes, so repetition is represented by a class with a count range and a
greediness flag; option nodes cover the remaining (?) sub-patterns. -/

inductive RE where
  /-- empty pattern -/
  | eps : RE
  /-- literal character sequence -/
  | lit : List Char → RE
  /-- character class with count range lo..hi (none = unbounded) and
  greediness flag: c\x7blo,hi\x7d -/
  | cls : (Char → Bool) → Nat → Option Nat → Bool → RE
  | seq : RE → RE → RE
  /-- ordered alternation a|b -/
  | alt : RE → RE → RE
  /-- optional sub-pattern e? with greediness flag -/
  | opt : RE → Bool → RE
  /-- numbered capture group -/
  | grp : Nat → RE → RE
  /-- word boundary \b -/
  | bnd : RE
  /-- dollar anchor: end of haystack or just before a final newline -/
  | eol : RE

/-- Number of capture groups, the length of Python match.groups(). -/
def numGroups : RE → Nat
  | .seq a b => numGroups a + numGroups b
  | .alt a b => numGroups a + numGroups b
  | .opt r _ => numGroups r
  | .grp _ r => numGroups r + 1
  | _ => 0

abbrev Caps := List (Nat × List Char)

/-- Maximal run of class characters from the front. -/
def classRun (p : Char → Bool) : List Char → Nat
  | [] => 0
  | c :: t => if p c then classRun p t + 1 else 0

/-- Previous character after consuming n characters of s (for \b). -/
def advPrev (prev : Option Char) (s : List Char) (n : Nat) : Option Char :=
  if n = 0 then prev else s.get? (n - 1)

def isWordOpt : Option Char → Bool
  | none => false
  | some c => wordC c

/-- Candidate repetition counts in preference order: longest first when
greedy, shortest first when lazy. -/
def repCounts (lo m : Nat) (greedy : Bool) : List Nat :=
  if greedy then (List.range (m + 1 - lo)).map (fun i => m - i)
  else (List.range (m + 1 - lo)).map (fun i => lo + i)

/-- Backtracking matcher in continuation style.  prev is the character just
before the current position (for word boundaries), k the continuation
receiving the new prev, the remaining input, and the captures collected on
the successful path. -/
def matchRE {α : Type} : RE → Option Char → List Char →
    (Option Char → List Char → Caps → Option α) → Caps → Option α
  | .eps, prev, s, k, caps => k prev s caps
  | .lit l, prev, s, k, caps =>
    if isPrefixL l s then
      k (advPrev prev s l.length) (s.drop l.length) caps
    else none
  | .cls p lo hi greedy, prev, s, k, caps =>
    let m0 := classRun p s
    let m := match hi with | none => m0 | some h => if m0 ≤ h then m0 else h
    if m < lo then none
    else (repCounts lo m greedy).findSome? fun n => k (advPrev prev s n) (s.drop n) caps
  | .seq a b, prev, s, k, caps =>
    matchRE a prev s (fun pc s1 caps1 => matchRE b pc s1 k caps1) caps
  | .alt a b, prev, s, k, caps =>
    (matchRE a prev s k caps).orElse fun _ => matchRE b prev s k caps
  | .opt r greedy, prev, s, k, caps =>
    if greedy then (matchRE r prev s k caps).orElse fun _ => k prev s caps
    else (k prev s caps).orElse fun _ => matchRE r prev s k caps
  | .grp i r, prev, s, k, caps =>
    matchRE r prev s
      (fun pc s1 caps1 => k pc s1 ((i, s.take (s.length - s1.length)) :: caps1)) caps
  | .bnd, prev, s, k, caps =>
    if isWordOpt prev ≠ isWordOpt s.head? then k prev s caps else none
  | .eol, prev, s, k, caps =>
    if s = [] || s = ['\n'] then k prev s caps else none

/-- Anchored match at the current position; returns consumed length and
captures of the first (Python-order) successful parse. -/
def matchHere (r : RE) (prev : Option Char) (s : List Char) : Option (Nat × Caps) :=
  match matchRE r prev s (fun _ rest caps => some (rest.length, caps)) [] with
  | none => none
  | some (restLen, caps) => some (s.length - restLen, caps)

/-- re.search: leftmost match; returns (start, length, captures). -/
def reSearchAux (r : RE) : Option Char → List Char → Nat → Option (Nat × Nat × Caps)
  | prev, s, pos =>
    match matchHere r prev s with
    | some (len, caps) => some (pos, len, caps)
    | none =>
      match s with
      | [] => none
      | c :: t => reSearchAux r (some c) t (pos + 1)

def reSearch (r : RE) (s : List Char) : Option (Nat × Nat × Caps) :=
  reSearchAux r none s 0

/-- Value of a capture group on the successful path (empty when absent). -/
def getGroup (caps : Caps) (i : Nat) : List Char :=
  match caps.lookup i with
  | some v => v
  | none => []

/-- re.match: anchored at the start. -/
def reMatch (r : RE) (s : List Char) : Option (Nat × Caps) := matchHere r none s

def reTest (r : RE) (s : List Char) : Bool := (reMatch r s).isSome

/-- re.findall for a pattern with one capture group and no empty matches:
collect group 1 of successive non-overlapping leftmost matches. -/
def findAll1Go (r : RE) : Nat → Option Char → List Char → List (List Char)
  | 0, _, _ => []
  | fuel + 1, prev, s =>
    match reSearchAux r prev s 0 with
    | none => []
    | some (pos, len, caps) =>
      let jump := pos + max len 1
      getGroup caps 1 :: findAll1Go r fuel (advPrev prev s jump) (s.drop jump)

def findAll1 (r : RE) (s : List Char) : List (List Char) :=
  findAll1Go r (s.length + 1) none s

/-- re.sub with an empty replacement, for patterns with no empty matches:
delete successive non-overlapping leftmost matches. -/
def subAllGo (r : RE) (repl : List Char) : Nat → Option Char → List Char → List Char
  | 0, _, s => s
  | fuel + 1, prev, s =>
    match reSearchAux r prev s 0 with
    | none => s
    | some (pos, len, _) =>
      if len = 0 then s
      else
        s.take pos ++ repl ++
          subAllGo r repl fuel (advPrev prev s (pos + len)) (s.drop (pos + len))

def subAll (r : RE) (repl : List Char) (s : List Char) : List Char :=
  subAllGo r repl (s.length + 1) none s

/-! ### The embedded patterns of extract_items and its helpers -/

def strL (s : String) : List Char := s.toList

def reseq (l : List RE) : RE := l.foldr RE.seq RE.eps

/-- Regex piece \d+ -/
def dplus : RE := .cls pyDigit 1 none true

/-- Regex piece \d exactly n times -/
def dex (n : Nat) : RE := .cls pyDigit n (some n) true

/-- Regex piece \d at least a and at most b times -/
def drange (a b : Nat) : RE := .cls pyDigit a (some b) true

/-- Regex piece \s+ -/
def splus : RE := .cls pySpace 1 none true

/-- Regex piece \s* -/
def sstar : RE := .cls pySpace 0 none true

/-- Regex piece \$? -/
def dollarOpt : RE := .cls (fun c => c = '$') 0 (some 1) true

/-- Body of (.+?): lazy one-or-more of any non-newline character -/
def dotLazyPlus : RE := .cls dotC 1 none false

/-- Regex piece \d+\.\d\x7b2\x7d -/
def num2 : RE := reseq [dplus, .lit (strL "."), dex 2]

/-- Pattern 1: item name followed by price at end of line,
r broken over the seven source regexes below; source order is kept. -/
def pat1a : RE := reseq [.grp 1 dotLazyPlus, splus, dollarOpt, .grp 2 num2, .eol]

def pat1b : RE := reseq [.grp 1 dotLazyPlus, splus, .grp 2 num2, .eol]

/-- Pattern 2 with @: quantity and unit price then total price -/
def pat2a : RE :=
  reseq [.grp 1 dotLazyPlus, splus, dplus, sstar, .lit (strL "@"), sstar,
    dollarOpt, .grp 2 num2, splus, dollarOpt, .grp 3 num2, .eol]

/-- Pattern 2 with x -/
def pat2b : RE :=
  reseq [.grp 1 dotLazyPlus, splus, dplus, sstar, .lit (strL "x"), sstar,
    dollarOpt, .grp 2 num2, splus, dollarOpt, .grp 3 num2, .eol]

/-- Regex piece \d+\.?\d* -/
def looseNum : RE :=
  reseq [dplus, .opt (.lit (strL ".")) true, .cls pyDigit 0 none true]

/-- Pattern 3: loose price format -/
def pat3 : RE := reseq [.grp 1 dotLazyPlus, splus, dollarOpt, .grp 2 looseNum, .eol]

/-- Pattern 4: item code, description, price -/
def pat4 : RE :=
  reseq [dplus, splus, .grp 1 dotLazyPlus, splus, dollarOpt, .grp 2 num2, .eol]

/-- Pattern 5: barcode/UPC, item, price -/
def pat5 : RE :=
  reseq [.cls pyDigit 8 (some 13) true, splus, .grp 1 dotLazyPlus, splus,
    dollarOpt, .grp 2 num2, .eol]

/-- item_patterns, in source order.  All are caret-anchored in the source, so
re.search coincides with an anchored match. -/
def itemPatterns : List RE := [pat1a, pat1b, pat2a, pat2b, pat3, pat4, pat5]

def slashDash : RE := .cls (fun c => c = '/' || c = '-') 1 (some 1) true

/-- Pattern ^\d+[A-Z]*\d*$ — an item name that still looks like a code or id -/
def codeRE : RE :=
  reseq [dplus, .cls upperAZ 0 none true, .cls pyDigit 0 none true, .eol]

/-- date-only line -/
def dateLineRE : RE :=
  reseq [drange 1 2, slashDash, drange 1 2, slashDash, drange 2 4, .eol]

/-- time-only line -/
def timeLineRE : RE :=
  reseq [drange 1 2, .lit (strL ":"), dex 2,
    .opt (.grp 1 (reseq [.lit (strL ":"), dex 2])) true, sstar,
    .opt (.grp 2 (.alt (.lit (strL "am")) (.lit (strL "pm")))) true, .eol]

/-- Pattern \$?(\d+\.\d\x7b2\x7d), the liberal findall pattern -/
def priceAnywhereRE : RE := reseq [dollarOpt, .grp 1 num2]

/-- Pattern \$?\d+\.\d\x7b2\x7d.*$, deleted from the line to recover the name -/
def priceToEndRE : RE :=
  reseq [dollarOpt, dplus, .lit (strL "."), dex 2, .cls dotC 0 none true, .eol]

/-- Regex piece \s+ for whitespace collapsing -/
def wsRunRE : RE := .cls pySpace 1 none true

/-- The three date patterns of extract_date (IGNORECASE is vacuous here). -/
def datePat1 : RE :=
  reseq [.bnd, .grp 1 (reseq [drange 1 2, slashDash, drange 1 2, slashDash, drange 2 4]), .bnd]

def datePat2 : RE :=
  reseq [.bnd, .grp 1 (reseq [drange 2 4, slashDash, drange 1 2, slashDash, drange 1 2]), .bnd]

def datePat3 : RE :=
  reseq [.bnd, .grp 1 (reseq [.cls wordC 3 (some 9) true, splus, drange 1 2,
    .opt (.lit (strL ",")) true, splus, drange 2 4]), .bnd]

def datePatterns : List RE := [datePat1, datePat2, datePat3]

/-- Regex piece [:\s]* of the total patterns -/
def colonSpaceStar : RE := .cls (fun c => c = ':' || pySpace c) 0 none true

def totalPat1 : RE := reseq [.lit (strL "total"), colonSpaceStar, dollarOpt, .grp 1 looseNum]

def totalPat2 : RE := reseq [.lit (strL "amount"), colonSpaceStar, dollarOpt, .grp 1 looseNum]

def totalPat3 : RE := reseq [.lit (strL "balance"), colonSpaceStar, dollarOpt, .grp 1 looseNum]

def totalPat4 : RE := reseq [.lit (strL "$"), .grp 1 num2, sstar, .eol]

def totalPatterns : List RE := [totalPat1, totalPat2, totalPat3, totalPat4]

/-! ### extract_items -/

/-- One output record of extract_items: a dict with the cleaned name and the
formatted price string. -/
structure Item where
  name : String
  price : String
deriving DecidableEq, Repr

/-- skip_terms, in source order (the liberal branch uses the first ten). -/
def skipTerms : List String :=
  ["total", "subtotal", "sub total", "sub-total", "tax", "sales tax", "state tax",
   "change", "cash", "credit", "debit", "visa", "mastercard", "amex", "discover",
   "receipt", "thank", "visit", "store", "phone", "address", "cashier", "register",
   "balance", "tendered", "payment", "card", "approval", "auth", "reference",
   "transaction", "merchant", "terminal", "batch", "sequence", "invoice",
   "customer", "member", "savings", "discount total", "coupon", "promotion",
   "tender", "amount due", "new balance", "previous balance", "minimum payment",
   "date", "time", "store #", "reg #", "tran #", "card #", "account",
   "www.", "http", ".com", ".net", ".org", "survey", "save", "earn",
   "points", "rewards", "club", "membership", "expires", "valid"]

/-- is_likely_item_line, the nested noise filter of extract_items.
line_lower of the source is pyStripL (pyLowerL line), written out at each
use. -/
def isLikelyItemLine (line : List Char) : Bool :=
  if (pyStripL line).length < 3 || 100 < (pyStripL line).length then false
  else if (line.filter fun c => !(pyDigit c || pySpace c || c = '-' || c = '.')).length < 3 then false
  else if skipTerms.any (fun t => containsSub (strL t) (pyStripL (pyLowerL line))) then false
  else if pyIsUpper line && pyWordCount line ≤ 3 then false
  else if [strL "***", strL "---", strL "===", strL "store hours", strL "return policy"].any
      (fun p => containsSub p (pyStripL (pyLowerL line))) then false
  else if reTest dateLineRE (pyStripL line) then false
  else if reTest timeLineRE (pyStripL (pyStripL (pyLowerL line))) then false
  else true

/-- re.sub of a leading \d+\s* with the empty string. -/
def subLeadingCode (l : List Char) : List Char :=
  match l with
  | [] => []
  | c :: _ => if pyDigit c then (l.dropWhile pyDigit).dropWhile pySpace else l

/-- re.sub of \s+ with one space. -/
def collapseWS (l : List Char) : List Char := subAll wsRunRE (strL " ") l

/-- Item name cleanup applied to a stripped capture. -/
def cleanName (g : List Char) : List Char := collapseWS (subLeadingCode g)

/-- The duplicate test: same lowercased name and same formatted price. -/
def isDup (items : List Item) (name fp : List Char) : Bool :=
  items.any fun e => pyLowerL e.name.toList == pyLowerL name && e.price.toList == fp

/-- Check 0.01 <= price <= 2000, the validated item price range. -/
def priceInRange (v : Dec) : Bool := decLe ⟨1, 2⟩ v && decLe v ⟨2000, 0⟩

/-- The shared tail of the pattern loop body: cleanup of the captured name,
the too-short and code-like name guards, price validation and formatting,
and the duplicate check, producing the record to append. -/
def mkCandidate (items : List Item) (name0 priceStr : List Char) : Option Item :=
  if (pyStripL (cleanName name0)).length < 2 then none
  else if reTest codeRE (pyStripL (cleanName name0)) then none
  else if priceInRange (parseDec priceStr) then
    if isDup items (cleanName name0) (formatCents (roundCents (parseDec priceStr))) then none
    else some ⟨⟨cleanName name0⟩, ⟨formatCents (roundCents (parseDec priceStr))⟩⟩
  else none

/-- Group holding the price: the third on a three-group pattern (quantity
patterns place the line total there), the second otherwise. -/
def pickPrice (caps : Caps) (g : Nat) : List Char :=
  pyStripL (getGroup caps (if g == 3 then 3 else 2))

/-- One iteration of the pattern loop: the candidate item this pattern
yields, or none to fall through to the next pattern. -/
def tryPattern (items : List Item) (line : List Char) (p : RE) : Option Item :=
  match reMatch p line with
  | none => none
  | some (_, caps) =>
    if numGroups p == 2 || numGroups p == 3 then
      mkCandidate items (pyStripL (getGroup caps 1)) (pickPrice caps (numGroups p))
    else none

def tryPatterns (items : List Item) (line : List Char) : List RE → Option Item
  | [] => none
  | p :: ps =>
    match tryPattern items line p with
    | some it => some it
    | none => tryPatterns items line ps

/-- The name computed by the liberal branch: the line with the first price
and everything after it removed, stripped, then cleaned as usual. -/
def liberalName (line : List Char) : List Char :=
  cleanName (pyStripL (subAll priceToEndRE [] line))

/-- The liberal fallback branch for lines containing a dollar sign. -/
def tryLiberal (items : List Item) (line : List Char) : Option Item :=
  if line.contains '$' then
    match (findAll1 priceAnywhereRE line).getLast? with
    | none => none
    | some priceStr =>
      if priceInRange (parseDec priceStr) then
        if 3 ≤ (liberalName line).length &&
            !(skipTerms.take 10).any (fun t => containsSub (strL t) (pyLowerL (liberalName line))) then
          if isDup items (liberalName line) (formatCents (roundCents (parseDec priceStr))) then none
          else some ⟨⟨liberalName line⟩, ⟨formatCents (roundCents (parseDec priceStr))⟩⟩
        else none
      else none
  else none

/-- Processing of one line of the main loop of extract_items. -/
def step (items : List Item) (line0 : List Char) : List Item :=
  if !isLikelyItemLine line0 then items
  else
    match tryPatterns items (pyStripL line0) itemPatterns with
    | some it => items ++ [it]
    | none =>
      match tryLiberal items (pyStripL line0) with
      | some it => items ++ [it]
      | none => items

/-- The item list before the final sort and truncation. -/
def acceptedItems (lines : List (List Char)) : List Item := lines.foldl step []

/-- float(price.replace( dollar , empty )), the sort key of an item. -/
def sortKey (it : Item) : Dec := parseDec (it.price.toList.filter fun c => c != '$')

/-- Descending comparison by price used for items.sort(..., reverse=True). -/
def priceDescLe (a b : Item) : Prop := decLe (sortKey b) (sortKey a) = true

instance : DecidableRel priceDescLe := fun _ _ => instDecidableEqBool _ _

/-- extract_items: accepted candidates sorted by price descending (a stable
sort, as Python list.sort), first 50. -/
def extractItems (lines : List (List Char)) : List Item :=
  (List.insertionSort priceDescLe (acceptedItems lines)).take 50

/-- The monetary amount of an output item, as the sort key value. -/
def amountQ (it : Item) : ℚ := (sortKey it).toQ

/-! ### parse_receipt and the remaining extractors -/

def commonStores : List String :=
  ["walmart", "target", "costco", "safeway", "kroger", "cvs", "walgreens",
   "home depot", "lowes", "best buy", "amazon", "whole foods", "trader joe",
   "starbucks", "mcdonalds", "subway", "chipotle"]

def extractStoreName (firstLines : List (List Char)) : String :=
  match firstLines.find? (fun l => commonStores.any fun st => containsSub (strL st) (pyLowerL l)) with
  | some l => ⟨pyTitleL l⟩
  | none =>
    match firstLines.find? (fun l => 2 < l.length && !pyIsDigitStr l) with
    | some l => ⟨pyTitleL l⟩
    | none => "Unknown Store"

def extractDateGo (text : List Char) : List RE → Option (List Char)
  | [] => none
  | p :: ps =>
    match reSearch p text with
    | some (_, _, caps) =>
      let g := getGroup caps 1
      if g.any pyDigit then some g else extractDateGo text ps
    | none => extractDateGo text ps

/-- extract_date; now stands for datetime.now().strftime of the fallback. -/
def extractDate (text : List Char) (now : String) : String :=
  match extractDateGo text datePatterns with
  | some g => ⟨g⟩
  | none => now

/-- Check 0.01 <= total <= 10000, the reasonable-total range. -/
def totalInRange (v : Dec) : Bool := decLe ⟨1, 2⟩ v && decLe v ⟨10000, 0⟩

def extractTotalLine (lineLower : List Char) : List RE → Option String
  | [] => none
  | p :: ps =>
    match reSearch p lineLower with
    | some (_, _, caps) =>
      let amount := getGroup caps 1
      if totalInRange (parseDec amount) then some ⟨'$' :: amount⟩
      else extractTotalLine lineLower ps
    | none => extractTotalLine lineLower ps

def extractTotalGo : List (List Char) → Option String
  | [] => none
  | l :: t =>
    match extractTotalLine (pyLowerL l) totalPatterns with
    | some s => some s
    | none => extractTotalGo t

/-- extract_total: scan the lines in reverse order. -/
def extractTotal (lines : List (List Char)) : String :=
  match extractTotalGo lines.reverse with
  | some s => s
  | none => "Not found"

structure ReceiptData where
  storeName : String
  date : String
  totalAmount : String
  items : List Item
  rawText : String
deriving DecidableEq, Repr

/-- The stripped nonempty lines parse_receipt feeds the extractors. -/
def receiptLines (text : String) : List (List Char) :=
  ((splitNL (pyStripL text.toList)).map pyStripL).filter fun l => !l.isEmpty

/-- parse_receipt; now is the formatted current date used as the extract_date
fallback, the only clock dependence of the parser. -/
def parseReceipt (text : String) (now : String) : ReceiptData :=
  ⟨extractStoreName ((receiptLines text).take 5),
   extractDate text.toList now,
   extractTotal (receiptLines text),
   extractItems (receiptLines text),
   text⟩

/-! ### Decimal arithmetic lemmas -/

theorem digitChar_pyDigit {d : Nat} (h : d < 10) : pyDigit (digitChar d) = true := by
  interval_cases d <;> decide

theorem digitChar_toNat {d : Nat} (h : d < 10) : (digitChar d).toNat - 48 = d := by
  interval_cases d <;> decide

theorem parseNat_append_singleton (l : List Char) (c : Char) :
    parseNat (l ++ [c]) = 10 * parseNat l + (c.toNat - 48) := by
  simp [parseNat, List.foldl_append]

theorem natCharsGo_digits :
    ∀ fuel n, ∀ c ∈ natCharsGo fuel n, pyDigit c = true := by
  intro fuel
  induction fuel with
  | zero => intro n c hc; simp [natCharsGo] at hc
  | succ fuel ih =>
    intro n c hc
    by_cases h : n < 10
    · simp [natCharsGo, h] at hc
      subst hc; exact digitChar_pyDigit h
    · simp [natCharsGo, h] at hc
      rcases hc with hc | hc
      · exact ih _ _ hc
      · subst hc; exact digitChar_pyDigit (Nat.mod_lt _ (by omega))

theorem parseNat_natCharsGo :
    ∀ fuel n, n < 10 ^ fuel → parseNat (natCharsGo fuel n) = n := by
  intro fuel
  induction fuel with
  | zero => intro n hn; interval_cases n; decide
  | succ fuel ih =>
    intro n hn
    by_cases h : n < 10
    · simp [natCharsGo, h, parseNat, digitChar_toNat h]
    · have hdiv : n / 10 < 10 ^ fuel := by
        rw [Nat.div_lt_iff_lt_mul (by omega)]
        calc n < 10 ^ (fuel + 1) := hn
        _ = 10 ^ fuel * 10 := by ring
      simp only [natCharsGo, h, if_false]
      rw [parseNat_append_singleton, ih _ hdiv,
        digitChar_toNat (Nat.mod_lt _ (by omega))]
      omega

theorem natChars_digits (n : Nat) : ∀ c ∈ natChars n, pyDigit c = true :=
  natCharsGo_digits (n + 1) n

theorem parseNat_natChars (n : Nat) : parseNat (natChars n) = n := by
  refine parseNat_natCharsGo (n + 1) n ?_
  calc n < 10 ^ n := Nat.lt_pow_self (by omega) n
  _ ≤ 10 ^ (n + 1) := Nat.pow_le_pow_right (by omega) (by omega)

theorem takeWhile_all_append {p : Char → Bool} {ds : List Char} (r : List Char)
    (h : ∀ c ∈ ds, p c = true) :
    (ds ++ r).takeWhile p = ds ++ r.takeWhile p := by
  induction ds with
  | nil => simp
  | cons c t ih =>
    have hc : p c = true := h c (by simp)
    simp only [List.cons_append, List.takeWhile_cons, hc, if_true]
    rw [ih fun d hd => h d (by simp [hd])]

theorem takeWhile_all {p : Char → Bool} {l : List Char} (h : ∀ c ∈ l, p c = true) :
    l.takeWhile p = l :=
  List.takeWhile_eq_self_iff.mpr h

theorem pad2_digits {m : Nat} (h : m < 100) : ∀ c ∈ pad2 m, pyDigit c = true := by
  intro c hc
  simp [pad2] at hc
  rcases hc with hc | hc <;> subst hc
  · exact digitChar_pyDigit (by omega)
  · exact digitChar_pyDigit (Nat.mod_lt _ (by omega))

theorem parseNat_pad2 {m : Nat} (h : m < 100) : parseNat (pad2 m) = m := by
  have h1 : m / 10 < 10 := by omega
  have h2 : m % 10 < 10 := Nat.mod_lt _ (by omega)
  show parseNat [digitChar (m / 10), digitChar (m % 10)] = m
  simp only [parseNat, List.foldl_cons, List.foldl_nil]
  rw [digitChar_toNat h1, digitChar_toNat h2]
  omega

/-- The formatted price string parses back to exactly its cents value. -/
theorem parseDec_formatCents (c : Nat) :
    parseDec ((formatCents c).filter fun ch => ch != '$') = ⟨c, 2⟩ := by
  have hmod : c % 100 < 100 := Nat.mod_lt _ (by omega)
  have hdol : ∀ ch : Char, pyDigit ch = true → (ch != '$') = true := by
    intro ch h
    by_cases hc : ch = '$'
    · subst hc; simp [pyDigit] at h
    · simp [hc]
  have hnc : (natChars (c / 100)).filter (fun ch => ch != '$') = natChars (c / 100) :=
    List.filter_eq_self.mpr fun ch hch => hdol ch (natChars_digits _ ch hch)
  have hp2 : (pad2 (c % 100)).filter (fun ch => ch != '$') = pad2 (c % 100) :=
    List.filter_eq_self.mpr fun ch hch => hdol ch (pad2_digits hmod ch hch)
  have hfilter : (formatCents c).filter (fun ch => ch != '$')
      = natChars (c / 100) ++ '.' :: pad2 (c % 100) := by
    show List.filter _ ('$' :: (natChars (c / 100) ++ '.' :: pad2 (c % 100))) = _
    rw [List.filter_cons_of_neg (by decide), List.filter_append, hnc,
      List.filter_cons_of_pos (by decide), hp2]
  have htake : (natChars (c / 100) ++ '.' :: pad2 (c % 100)).takeWhile pyDigit
      = natChars (c / 100) := by
    rw [takeWhile_all_append _ (natChars_digits (c / 100))]
    have : pyDigit '.' = false := by decide
    simp [List.takeWhile_cons, this]
  rw [hfilter]
  simp only [parseDec, htake, List.drop_left, List.head?_cons, List.tail_cons,
    if_pos rfl]
  rw [takeWhile_all (pad2_digits hmod), parseNat_natChars, parseNat_pad2 hmod]
  have hlen : (pad2 (c % 100)).length = 2 := rfl
  rw [hlen]
  have : c / 100 * 10 ^ 2 + c % 100 = c := by omega
  rw [this]
  simp

/-- decLe is the exact order on the represented rationals. -/
theorem decLe_iff (a b : Dec) : decLe a b = true ↔ a.toQ ≤ b.toQ := by
  have ha : (0 : ℚ) < 10 ^ a.scale := by positivity
  have hb : (0 : ℚ) < 10 ^ b.scale := by positivity
  rw [decLe, decide_eq_true_eq, Dec.toQ, Dec.toQ, div_le_div_iff₀ ha hb]
  rw [show ((10 : ℚ) ^ b.scale) = ((10 ^ b.scale : ℕ) : ℚ) by push_cast; ring,
    show ((10 : ℚ) ^ a.scale) = ((10 ^ a.scale : ℕ) : ℚ) by push_cast; ring,
    ← Nat.cast_mul, ← Nat.cast_mul, Nat.cast_le]

theorem Dec.toQ_mk (n s : Nat) : Dec.toQ ⟨n, s⟩ = (n : ℚ) / 10 ^ s := rfl

/-- Bounds on the rounded cents of an in-range price. -/
theorem roundCents_bounds {v : Dec} (h : priceInRange v = true) :
    1 ≤ roundCents v ∧ roundCents v ≤ 200000 := by
  rw [priceInRange, Bool.and_eq_true] at h
  have h1 : 10 ^ v.scale ≤ v.num * 10 ^ 2 := by
    have := h.1
    simpa [decLe] using this
  have h2 : v.num ≤ 2000 * 10 ^ v.scale := by
    have := h.2
    simpa [decLe] using this
  simp only [roundCents]
  set d := 10 ^ v.scale with hd
  set q := v.num * 100 with hq
  have hdpos : 0 < d := Nat.pos_pow_of_pos _ (by omega)
  have hqd : d ≤ q := by
    calc d ≤ v.num * 10 ^ 2 := h1
    _ = q := by rw [hq]; ring
  have hqu : q ≤ 200000 * d := by
    calc q = v.num * 100 := hq
    _ ≤ (2000 * d) * 100 := Nat.mul_le_mul_right _ h2
    _ = 200000 * d := by ring
  set c0 := q / d with hc0
  set r := q % d with hr
  have hc1 : 1 ≤ c0 := (Nat.one_le_div_iff hdpos).mpr hqd
  have hcu : c0 ≤ 200000 := by
    rw [hc0]
    have := Nat.div_le_div_right (c := d) hqu
    rwa [Nat.mul_div_cancel _ hdpos] at this
  have hmod : d * c0 + r = q := Nat.div_add_mod q d
  have hmlt : r < d := Nat.mod_lt _ hdpos
  rcases Nat.lt_or_ge c0 200000 with hlt | hge
  · constructor <;> (split <;> (try split) <;> (try split) <;> omega)
  · have hceq : c0 = 200000 := le_antisymm hcu hge
    have hr0 : r = 0 := by
      rw [hceq] at hmod
      omega
    constructor <;> (split <;> (try split) <;> (try split) <;> omega)

/-! ### Structure of accepted items -/

/-- Every accepted record passed the name-length and price-range guards: it
stores a price formatted from in-range cents and a name of length >= 2. -/
def GoodItem (it : Item) : Prop :=
  2 ≤ it.name.length ∧ ∃ c : Nat, 1 ≤ c ∧ c ≤ 200000 ∧ it.price = ⟨formatCents c⟩

/-- The duplicate-suppression key: lowercased name together with the
formatted price string. -/
def distinctKey (a b : Item) : Prop :=
  ¬(pyLowerL a.name.toList = pyLowerL b.name.toList ∧ a.price = b.price)

theorem distinctKey_symm {a b : Item} (h : distinctKey a b) : distinctKey b a := by
  intro ⟨h1, h2⟩
  exact h ⟨h1.symm, h2.symm⟩

/-- What acceptance of a new candidate guarantees, relative to the items
accepted so far. -/
def NewOk (items : List Item) (it : Item) : Prop :=
  GoodItem it ∧ ∀ e ∈ items, distinctKey e it

theorem pyStripL_length_le (l : List Char) : (pyStripL l).length ≤ l.length := by
  have h1 := (List.dropWhile_sublist (l := l) pySpace).length_le
  have h2 := (List.dropWhile_sublist (l := (l.dropWhile pySpace).reverse) pySpace).length_le
  simp only [pyStripL, List.length_reverse] at *
  omega

theorem isDup_false {items : List Item} {name fp : List Char}
    (h : isDup items name fp = false) :
    ∀ e ∈ items, ¬(pyLowerL e.name.toList = pyLowerL name ∧ e.price.toList = fp) := by
  rw [isDup, List.any_eq_false] at h
  intro e he ⟨h1, h2⟩
  have := h e he
  simp only [h1, h2, beq_self_eq_true, Bool.and_self, not_true_eq_false] at this

theorem mkCandidate_some {items : List Item} {name0 priceStr : List Char} {it : Item}
    (h : mkCandidate items name0 priceStr = some it) : NewOk items it := by
  simp only [mkCandidate] at h
  split at h
  · exact absurd h (by simp)
  · split at h
    · exact absurd h (by simp)
    · split at h
      · split at h
        · exact absurd h (by simp)
        · next hshort hcode hrange hdup =>
          rw [Option.some_inj] at h
          subst h
          refine ⟨⟨?_, roundCents (parseDec priceStr),
            (roundCents_bounds hrange).1, (roundCents_bounds hrange).2, rfl⟩, ?_⟩
          · have := pyStripL_length_le (cleanName name0)
            simp only [String.length]
            omega
          · intro e he hkey
            have hd := isDup_false (Bool.not_eq_true _ ▸ hdup) e he
            exact hd ⟨hkey.1, congrArg String.toList hkey.2⟩
      · exact absurd h (by simp)

theorem tryPattern_some {items : List Item} {line : List Char} {p : RE} {it : Item}
    (h : tryPattern items line p = some it) : NewOk items it := by
  simp only [tryPattern] at h
  split at h
  · exact absurd h (by simp)
  · split at h
    · exact mkCandidate_some h
    · exact absurd h (by simp)

theorem tryPatterns_some {items : List Item} {line : List Char} {it : Item} :
    ∀ {ps : List RE}, tryPatterns items line ps = some it → NewOk items it := by
  intro ps
  induction ps with
  | nil => intro h; exact absurd h (by simp [tryPatterns])
  | cons p ps ih =>
    intro h
    simp only [tryPatterns] at h
    split at h
    · rw [Option.some_inj] at h
      subst h
      exact tryPattern_some (by assumption)
    · exact ih h

set_option maxHeartbeats 2000000 in
theorem tryLiberal_some {items : List Item} {line : List Char} {it : Item}
    (h : tryLiberal items line = some it) : NewOk items it := by
  simp only [tryLiberal] at h
  split at h
  · split at h
    · exact absurd h (by simp)
    · split at h
      · split at h
        · split at h
          · exact absurd h (by simp)
          · next priceStr _ hrange hname hdup =>
            rw [Option.some_inj] at h
            subst h
            refine ⟨⟨?_, roundCents (parseDec priceStr),
              (roundCents_bounds hrange).1, (roundCents_bounds hrange).2, rfl⟩, ?_⟩
            · rw [Bool.and_eq_true] at hname
              have h3 : 3 ≤ (liberalName line).length := by simpa using hname.1
              simp only [String.length]
              omega
            · intro e he hkey
              have hd := isDup_false (Bool.not_eq_true _ ▸ hdup) e he
              exact hd ⟨hkey.1, congrArg String.toList hkey.2⟩
        · exact absurd h (by simp)
      · exact absurd h (by simp)
  · exact absurd h (by simp)

theorem step_eq (items : List Item) (l : List Char) :
    step items l = items ∨
      ∃ it, step items l = items ++ [it] ∧ NewOk items it := by
  simp only [step]
  split
  · exact Or.inl rfl
  · split
    · rename_i it hit
      exact Or.inr ⟨it, rfl, tryPatterns_some hit⟩
    · split
      · rename_i it hit
        exact Or.inr ⟨it, rfl, tryLiberal_some hit⟩
      · exact Or.inl rfl

/-- A non-item line leaves the state unchanged. -/
theorem step_of_not_likely {items : List Item} {l : List Char}
    (h : isLikelyItemLine l = false) : step items l = items := by
  rw [step, h]
  rfl

theorem foldl_step_good :
    ∀ (ls : List (List Char)) (items : List Item),
      (∀ it ∈ items, GoodItem it) → ∀ it ∈ ls.foldl step items, GoodItem it := by
  intro ls
  induction ls with
  | nil => intro items h it hit; exact h it hit
  | cons l ls ih =>
    intro items h it hit
    refine ih (step items l) ?_ it hit
    rcases step_eq items l with heq | ⟨jt, heq, hok⟩
    · rw [heq]; exact h
    · rw [heq]
      intro e he
      rcases List.mem_append.mp he with he | he
      · exact h e he
      · rw [List.mem_singleton.mp he]
        exact hok.1

theorem foldl_step_pairwise :
    ∀ (ls : List (List Char)) (items : List Item),
      items.Pairwise distinctKey → (ls.foldl step items).Pairwise distinctKey := by
  intro ls
  induction ls with
  | nil => intro items h; exact h
  | cons l ls ih =>
    intro items h
    refine ih (step items l) ?_
    rcases step_eq items l with heq | ⟨jt, heq, hok⟩
    · rw [heq]; exact h
    · rw [heq]
      refine List.pairwise_append.mpr ⟨h, List.pairwise_singleton _ _, ?_⟩
      intro a ha b hb
      rw [List.mem_singleton.mp hb]
      exact hok.2 a ha

theorem acceptedItems_good {lines : List (List Char)} :
    ∀ it ∈ acceptedItems lines, GoodItem it :=
  foldl_step_good lines [] (by simp)

theorem acceptedItems_pairwise (lines : List (List Char)) :
    (acceptedItems lines).Pairwise distinctKey :=
  foldl_step_pairwise lines [] (by simp)

/-! ### The sort and truncation -/

instance : IsTotal Item priceDescLe := by
  constructor
  intro a b
  rcases le_total (sortKey b).toQ (sortKey a).toQ with h | h
  · exact Or.inl ((decLe_iff _ _).mpr h)
  · exact Or.inr ((decLe_iff _ _).mpr h)

instance : IsTrans Item priceDescLe := by
  constructor
  intro a b c hab hbc
  exact (decLe_iff _ _).mpr (le_trans ((decLe_iff _ _).mp hbc) ((decLe_iff _ _).mp hab))

theorem extractItems_subperm (lines : List (List Char)) :
    (extractItems lines).Subperm (acceptedItems lines) :=
  ((List.take_sublist _ _).subperm).trans (List.perm_insertionSort _ _).subperm

theorem mem_extractItems {lines : List (List Char)} {it : Item}
    (h : it ∈ extractItems lines) : it ∈ acceptedItems lines :=
  (extractItems_subperm lines).subset h

theorem extractItems_sorted (lines : List (List Char)) :
    (extractItems lines).Pairwise priceDescLe :=
  List.Pairwise.sublist (List.take_sublist _ _) (List.sorted_insertionSort priceDescLe _)

/-- The amount of an item built from cents c is exactly c / 100. -/
theorem amountQ_of_good {it : Item} (h : GoodItem it) :
    ∃ c : Nat, 1 ≤ c ∧ c ≤ 200000 ∧ amountQ it = (c : ℚ) / 100 := by
  obtain ⟨-, c, h1, h2, hp⟩ := h
  refine ⟨c, h1, h2, ?_⟩
  have : sortKey it = ⟨c, 2⟩ := by
    rw [sortKey, hp]
    exact parseDec_formatCents c
  rw [amountQ, this, Dec.toQ_mk]
  norm_num

theorem amountQ_range_of_good {it : Item} (h : GoodItem it) :
    (1 : ℚ) / 100 ≤ amountQ it ∧ amountQ it ≤ 2000 := by
  obtain ⟨c, h1, h2, hq⟩ := amountQ_of_good h
  rw [hq]
  constructor
  · apply div_le_div_of_nonneg_right ?_ (by norm_num)
    exact_mod_cast h1
  · rw [div_le_iff₀ (by norm_num)]
    calc (c : ℚ) ≤ 200000 := by exact_mod_cast h2
    _ = 2000 * 100 := by norm_num

/-! ### Claim theorems -/

/-- C1, counterexample: on the two-line input the Milk line is accepted
first, yet the returned list puts Bread first, because extract_items sorts by
price descending before returning; item order is not original line order. -/
theorem c1_counterexample :
    (acceptedItems (receiptLines "Milk 1.50\nBread 2.00")).map Item.name = ["Milk", "Bread"] ∧
      (parseReceipt "Milk 1.50\nBread 2.00" "01/01/2024").items.map Item.name = ["Bread", "Milk"] := by
  constructor <;> decide

/-- C1, amended: the returned item list is not in original line order; it is
a subpermutation of the accepted candidates rearranged so that amounts are
in descending order. -/
theorem c1_amended (text now : String) :
    ((parseReceipt text now).items).Pairwise (fun a b => amountQ b ≤ amountQ a) ∧
      ((parseReceipt text now).items).Subperm (acceptedItems (receiptLines text)) := by
  constructor
  · exact (extractItems_sorted (receiptLines text)).imp fun hab => (decLe_iff _ _).mp hab
  · exact extractItems_subperm _

/-- The end-to-end example input of the specification. -/
def walmartText : String :=
  "WALMART\n123 MAIN ST\n04/01/24 10:15\nBANANAS 1.29\nBREAD 2X1.50 3.00\nTAX 0.32\nTOTAL 4.61"

/-- C2, counterexample: on the end-to-end example input the parser returns no
items at all — the BANANAS and BREAD lines are all-uppercase with at most
three words and are discarded by the header/footer filter — so it does not
return the two claimed items. -/
theorem c2_counterexample :
    (parseReceipt walmartText "01/01/2024").items = [] ∧
      (parseReceipt walmartText "01/01/2024").items.length ≠ 2 := by
  constructor <;> decide

/-- C2, amended: the end-to-end example input yields no items: every line,
including the BANANAS and BREAD lines, is excluded. -/
theorem c2_amended (now : String) : (parseReceipt walmartText now).items = [] :=
  (by decide : extractItems (receiptLines walmartText) = [])

/-- C3, counterexample: the price guard accepts up to 2000, not 999.99: a
1500.00 line yields an item whose amount exceeds 999.99. -/
theorem c3_counterexample :
    ∃ it ∈ (parseReceipt "Fancy Widget 1500.00" "01/01/2024").items,
      ¬ amountQ it ≤ 999.99 := by
  refine ⟨⟨"Fancy Widget", "$1500.00"⟩, by decide, ?_⟩
  have hs : sortKey (⟨"Fancy Widget", "$1500.00"⟩ : Item) = ⟨150000, 2⟩ := by decide
  rw [amountQ, hs, Dec.toQ_mk]
  norm_num

/-- C3, amended: every returned item's amount lies in [0.01, 2000], the range
the code actually validates. -/
theorem c3_amended (text now : String) (it : Item)
    (h : it ∈ (parseReceipt text now).items) :
    (1 : ℚ) / 100 ≤ amountQ it ∧ amountQ it ≤ 2000 :=
  amountQ_range_of_good (acceptedItems_good it (mem_extractItems h))

/-- C3, witness: the amended range theorem applied to the Milk item. -/
theorem c3_witness :
    (⟨"Milk", "$1.50"⟩ : Item) ∈ (parseReceipt "Milk 1.50" "01/01/2024").items ∧
      ((1 : ℚ) / 100 ≤ amountQ ⟨"Milk", "$1.50"⟩ ∧ amountQ ⟨"Milk", "$1.50"⟩ ≤ 2000) :=
  ⟨by decide, c3_amended "Milk 1.50" "01/01/2024" _ (by decide)⟩

/-- C4, counterexample: two distinct source lines that clean to the same
(name, price) pair produce a single item, not one each — duplicate
suppression keys on the pair, not on the exact source line. -/
theorem c4_counterexample :
    "Milk 1.50" ≠ "Milk  1.50" ∧
      (parseReceipt "Milk 1.50\nMilk  1.50" "01/01/2024").items.length = 1 := by
  constructor <;> decide

/-- C4, amended: duplicate suppression keys on the case-insensitive cleaned
name together with the formatted price: no two returned items share that
pair (so an exactly repeated line still yields at most one item). -/
theorem c4_amended (text now : String) :
    ((parseReceipt text now).items).Pairwise distinctKey := by
  have hacc := acceptedItems_pairwise (receiptLines text)
  have hperm := List.perm_insertionSort priceDescLe (acceptedItems (receiptLines text))
  have hsorted := (hperm.pairwise_iff fun h => distinctKey_symm h).mpr hacc
  exact List.Pairwise.sublist (List.take_sublist _ _) hsorted

/-- C5: the subtotal example yields exactly the Milk and Bread items and no
item for the Subtotal line. -/
theorem c5_subtotal_suppressed (now : String) :
    (parseReceipt "Milk 1.50\nBread 2.00\nSubtotal 3.50" now).items =
      [⟨"Bread", "$2.00"⟩, ⟨"Milk", "$1.50"⟩] :=
  (by decide : extractItems (receiptLines "Milk 1.50\nBread 2.00\nSubtotal 3.50") =
    [⟨"Bread", "$2.00"⟩, ⟨"Milk", "$1.50"⟩])

/-- C6, counterexample: the liberal dollar-sign branch checks only the first
ten skip terms and a length of three, so a purely numeric name can be
returned. -/
theorem c6_counterexample :
    ∃ it ∈ (parseReceipt "12 345 $1.50 AB" "01/01/2024").items,
      pyIsDigitStr it.name.toList = true :=
  ⟨⟨"345", "$1.50"⟩, by decide, by decide⟩

/-- C6, amended: every returned item name has length at least two (the
purely-numeric half of the claim fails on the liberal branch). -/
theorem c6_amended (text now : String) (it : Item)
    (h : it ∈ (parseReceipt text now).items) : 2 ≤ it.name.length :=
  (acceptedItems_good it (mem_extractItems h)).1

/-- C6, witness: the amended name-length theorem applied to the Milk item. -/
theorem c6_witness :
    (⟨"Milk", "$1.50"⟩ : Item) ∈ (parseReceipt "Milk 1.50" "01/01/2024").items ∧
      2 ≤ (⟨"Milk", "$1.50"⟩ : Item).name.length :=
  ⟨by decide, c6_amended "Milk 1.50" "01/01/2024" _ (by decide)⟩

/-- C7: parsing is total (the embedding is a Lean function), and whitespace
only input yields an empty item list. -/
theorem c7_whitespace_empty (text now : String) (h : text.toList.all pySpace = true) :
    (parseReceipt text now).items = [] := by
  have hstrip : pyStripL text.toList = [] := by
    have h1 : text.toList.dropWhile pySpace = [] :=
      List.dropWhile_eq_nil_iff.mpr fun x hx => List.all_eq_true.mp h x hx
    rw [pyStripL, h1]
    rfl
  show extractItems (((splitNL (pyStripL text.toList)).map pyStripL).filter
    fun l => !l.isEmpty) = []
  rw [hstrip]
  decide

/-- C7, witness: the whitespace theorem applied to a blank text. -/
theorem c7_witness :
    (" \t\n ").toList.all pySpace = true ∧
      (parseReceipt " \t\n " "01/01/2024").items = [] :=
  ⟨by decide, c7_whitespace_empty " \t\n " "01/01/2024" (by decide)⟩

/-- C8, counterexample: the full parse output is not a function of the text
alone: with no date in the text, extract_date falls back to the current
clock, so two invocations at different times differ (in the date field). -/
theorem c8_counterexample :
    parseReceipt "Milk 1.50" "01/01/2024" ≠ parseReceipt "Milk 1.50" "01/02/2024" ∧
      (parseReceipt "Milk 1.50" "01/01/2024").date = "01/01/2024" := by
  constructor <;> decide

/-- C8, amended: all output components except the date field are
deterministic functions of the input text; only the date can depend on the
clock (through the extract_date fallback). -/
theorem c8_amended (text n1 n2 : String) :
    (parseReceipt text n1).items = (parseReceipt text n2).items ∧
      (parseReceipt text n1).storeName = (parseReceipt text n2).storeName ∧
      (parseReceipt text n1).totalAmount = (parseReceipt text n2).totalAmount ∧
      (parseReceipt text n1).rawText = (parseReceipt text n2).rawText :=
  ⟨rfl, rfl, rfl, rfl⟩

/-- C9: a line of twelve digits is never an item line, so inserting it
anywhere leaves the extracted items unchanged. -/
theorem c9_upc_line_no_item (xs ys : List (List Char)) (d : List Char)
    (_h12 : d.length = 12) (hdig : d.all pyDigit = true) :
    extractItems (xs ++ d :: ys) = extractItems (xs ++ ys) := by
  have hfilter : (d.filter fun c => !(pyDigit c || pySpace c || c = '-' || c = '.')) = [] := by
    rw [List.filter_eq_nil_iff]
    intro c hc
    have := List.all_eq_true.mp hdig c hc
    simp [this]
  have hlik : isLikelyItemLine d = false := by
    simp only [isLikelyItemLine, hfilter]
    norm_num
  have hfold : ∀ s : List Item, List.foldl step s (xs ++ d :: ys) = List.foldl step s (xs ++ ys) := by
    intro s
    rw [List.foldl_append, List.foldl_append, List.foldl_cons, step_of_not_likely hlik]
  rw [extractItems, extractItems, acceptedItems, acceptedItems, hfold]

/-- C9, witness: the UPC-line theorem applied to the example barcode before a
Milk line. -/
theorem c9_witness :
    (strL "036000291452").length = 12 ∧ (strL "036000291452").all pyDigit = true ∧
      extractItems ([] ++ strL "036000291452" :: [strL "Milk 1.50"]) =
        extractItems ([] ++ [strL "Milk 1.50"]) :=
  ⟨by decide, by decide,
    c9_upc_line_no_item [] [strL "Milk 1.50"] (strL "036000291452") (by decide) (by decide)⟩

/-- C10: exactly min(50, accepted) items are returned — so at most fifty,
and fifty when more candidates were accepted — and they are a maximal-price
selection: the list completes to a permutation of all accepted candidates in
which every discarded candidate's amount is at most every returned one's,
because the accepted list is sorted by price descending before truncation. -/
theorem c10_sorted_truncation (text now : String) :
    (parseReceipt text now).items.length
        = min 50 (acceptedItems (receiptLines text)).length ∧
      ∃ rest : List Item,
        ((parseReceipt text now).items ++ rest).Perm (acceptedItems (receiptLines text)) ∧
          ∀ a ∈ (parseReceipt text now).items, ∀ b ∈ rest, amountQ b ≤ amountQ a := by
  refine ⟨?_,
    (List.insertionSort priceDescLe (acceptedItems (receiptLines text))).drop 50, ?_, ?_⟩
  · show (List.take 50 _).length = _
    rw [List.length_take,
      (List.perm_insertionSort priceDescLe (acceptedItems (receiptLines text))).length_eq]
  · show (List.take 50 _ ++ List.drop 50 _).Perm _
    rw [List.take_append_drop]
    exact List.perm_insertionSort _ _
  · intro a ha b hb
    have hsorted := List.sorted_insertionSort priceDescLe (acceptedItems (receiptLines text))
    have hsp : (List.take 50 (List.insertionSort priceDescLe (acceptedItems (receiptLines text)))
        ++ List.drop 50 (List.insertionSort priceDescLe (acceptedItems (receiptLines text)))).Pairwise
          priceDescLe := by
      rw [List.take_append_drop]
      exact hsorted
    exact (decLe_iff _ _).mp ((List.pairwise_append.mp hsp).2.2 a ha b hb)

end Receipt
